import Mathlib

/-!
Shallow embedding of `src/nictl/main.py` (the `nictl` niri IPC client) and
verification of the behavioural claims about it.

Conventions used throughout:
* Python `int` is modelled as `Int` (indices from the daemon are small and
  never overflow a Python int, which is unbounded anyway).
* Python byte strings / strings that are inspected character by character are
  modelled as `List Char` so that every operation is structurally recursive
  and kernel-computable.
* Fallible Python code (exceptions: `IndexError`, `KeyError`,
  `json.JSONDecodeError`, the explicit `raise Exception`) is modelled with
  `Option` / `Except`: `none` / `.error` means the Python call raises before
  producing its effect.
* The network is modelled by passing the data a socket would deliver
  (chunk lists, decoded responses, event lists) explicitly as arguments.
-/

namespace Nictl

/-! ## Python `min`/`max` over a list with an eager default

`min(xs, default=d)` / `max(xs, default=d)` on a nonempty list fold the
binary `min`/`max` over the elements; on an empty list they return `d`. -/

/-- Python `min(l, default=d)` for integer lists. -/
def pymin (l : List Int) (d : Int) : Int :=
  match l with
  | [] => d
  | h :: t => t.foldl min h

/-- Python `max(l, default=d)` for integer lists. -/
def pymax (l : List Int) (d : Int) : Int :=
  match l with
  | [] => d
  | h :: t => t.foldl max h

/-! ## `cycle_workspace` (main.py lines 115-162)

`next_workspace` is the inner function of `cycle_workspace`.  Its free
variables `occupied` (the sorted list of occupied workspace indices, or
`None` when `--skip-next-empty` is off) and `max_workspace` are passed
explicitly.  `occupied[0]` / `occupied[-1]` are the eagerly evaluated
defaults of the `min` / `max` fallback; on an empty list they raise
`IndexError`, modelled by `Option.none` (via `occ[0]?` / `occ.getLast?`). -/

/-- Target selection of `next_workspace` (main.py lines 132-143), before the
wraparound.  `none` models the `IndexError` raised by the eager evaluation of
`occupied[0]` / `occupied[-1]` when `occupied` is empty. -/
def select_target (occupied : Option (List Int)) (current step : Int) : Option Int :=
  match occupied with
  | none => some (current + step)
  | some occ =>
    if current ∈ occ then
      some (current + step)
    else if (current + step) ∉ occ then
      if step > 0 then
        (occ[0]?).map (fun d => pymin (occ.filter (fun w => decide (w > current))) d)
      else
        (occ.getLast?).map (fun d => pymax (occ.filter (fun w => decide (w < current))) d)
    else
      some (current + step)

/-- The wraparound to first/last (main.py lines 145-149). -/
def wrap (max_workspace target : Int) : Int :=
  if target < 1 then max_workspace
  else if target > max_workspace then 1
  else target

/-- `next_workspace` (main.py lines 132-151): select a target, then wrap. -/
def next_workspace (occupied : Option (List Int)) (max_workspace current step : Int) :
    Option Int :=
  (select_target occupied current step).map (wrap max_workspace)

/-- Direction argument of `cycle_workspace`. -/
inductive Direction where
  | up
  | down
deriving DecidableEq, Repr

/-- The workspace index that `cycle_workspace` (main.py lines 153-162) passes
to the `FocusWorkspace` action, given the state queried from the daemon.
`none` means the computation raises before any focus command is issued. -/
def cycle_workspace (direction : Direction) (occupied : Option (List Int))
    (max_workspace current : Int) : Option Int :=
  match direction with
  | .down => next_workspace occupied max_workspace current 1
  | .up => next_workspace occupied max_workspace current (-1)

/-! ## JSON values and `send_command` (main.py lines 48-70)

The transport delivers one line; `json.loads` either fails (invalid JSON,
modelled as `Option.none`) or produces a value of the inductive `Json`.
`send_command`'s response handling is the pure function `process_response`
below: everything before it (connect, serialize, sendall, read one line)
only produces the response line it consumes. -/

/-- A decoded JSON value, as produced by `json.loads`. -/
inductive Json where
  | null
  | bool (b : Bool)
  | num (n : Int)
  | str (s : String)
  | arr (elems : List Json)
  | obj (fields : List (String × Json))

/-- Python `dict.get(k)`: the value of the first field named `k`, if any. -/
def lookupField (k : String) : List (String × Json) → Option Json
  | [] => none
  | (k', v) :: rest => if k' = k then some v else lookupField k rest

/-- Python truthiness of a JSON-decoded value: `None`, `False`, `0`, `""`,
`[]` and `{}` are falsy, everything else is truthy. -/
def truthy : Json → Bool
  | .null => false
  | .bool b => b
  | .num n => n != 0
  | .str s => s != ""
  | .arr elems => !elems.isEmpty
  | .obj fields => !fields.isEmpty

/-- Whether a decoded value is a JSON object with a field named `k`. -/
def hasKey (j : Json) (k : String) : Bool :=
  match j with
  | .obj fields => (lookupField k fields).isSome
  | _ => false

/-- The `cmd` argument of `send_command`: a bare named action (Python `str`)
or a structured action (Python `dict`). -/
inductive Cmd where
  | str (s : String)
  | dict (d : Json)

/-- The exception raised by a `send_command` response path. -/
inductive PyError where
  | jsonDecodeError
  | attributeError
  | typeError
  | keyError (k : String)
  | commandError (detail : Option Json)

/-- Response handling of `send_command` (main.py lines 62-70) on the decoded
response line (`none` = `json.loads` raised).

* `json.loads` failure propagates (`jsonDecodeError`).
* `.get("Ok")` on a non-dict raises `AttributeError`.
* `if ok_result := json_response.get("Ok"):` takes the success branch only
  when the key is present AND its value is truthy (walrus + truthiness).
* In the success branch, a named (`str`) command is unwrapped with
  `ok_result[cmd]`: `KeyError` if the key is absent, `TypeError` if
  `ok_result` is not a dict; a structured (`dict`) command returns
  `ok_result` as is.
* Otherwise `error = json_response.get("Err")` (possibly `None`) and a
  generic `Exception` is raised, modelled as `commandError`. -/
def process_response (cmd : Cmd) (resp : Option Json) : Except PyError Json :=
  match resp with
  | none => .error .jsonDecodeError
  | some (Json.obj fields) =>
    match lookupField "Ok" fields with
    | some ok_result =>
      if truthy ok_result then
        match cmd with
        | .str s =>
          match ok_result with
          | .obj okFields =>
            match lookupField s okFields with
            | some v => .ok v
            | none => .error (.keyError s)
          | _ => .error .typeError
        | .dict _ => .ok ok_result
      else
        .error (.commandError (lookupField "Err" fields))
    | none => .error (.commandError (lookupField "Err" fields))
  | some _ => .error .attributeError

/-! ## `read_lines` (main.py lines 22-37)

The socket is modelled by the list of chunks that successive `recv` calls
return; once the list is exhausted the peer has closed and `recv` returns
the empty chunk.  The observable behaviour is the interleaved trace of
`recv` calls and yielded lines. -/

/-- One observable step of `read_lines`: a `recv` call returning a chunk, or
a yielded line. -/
inductive RWAction where
  | recv (chunk : List Char)
  | yieldLine (line : List Char)
deriving DecidableEq, Repr

/-- `buffer.endswith(b"\n")`. -/
def endsNewline (buffer : List Char) : Bool :=
  buffer.getLast? == some '\n'

/-- The yield phase of `read_lines` (main.py lines 33-37): split the buffer
on newlines and yield every nonempty segment. -/
def drain (buffer : List Char) : List RWAction :=
  ((buffer.splitOn '\n').filter (fun l => !l.isEmpty)).map RWAction.yieldLine

/-- The full trace of `read_lines` (main.py lines 22-37) run against a
socket that returns the given chunks from successive `recv` calls (and the
empty chunk, i.e. peer closed, once they are exhausted). -/
def read_trace : List (List Char) → List Char → List RWAction
  | [], buffer =>
    if endsNewline buffer then drain buffer
    else RWAction.recv [] :: drain buffer
  | c :: rest, buffer =>
    if endsNewline buffer then drain buffer
    else RWAction.recv c :: (if c.isEmpty then drain buffer else read_trace rest (buffer ++ c))

/-! ## `spawn_or_focus` (main.py lines 73-91)

Its daemon queries are passed in: the focused window's `app_id` (or `none`
when `FocusedWindow` returned a falsy value or the window has no `app_id`)
and the list of open windows.  The result is the single action it issues. -/

/-- The fields of a window that `spawn_or_focus` reads. -/
structure SWindow where
  id : Int
  app_id : List Char
deriving DecidableEq, Repr

/-- Python `needle in hay` for strings: substring containment. -/
def startsWith : List Char → List Char → Bool
  | _, [] => true
  | [], _ :: _ => false
  | h :: t, n :: ns => h == n && startsWith t ns

/-- Python `needle in hay` (substring test), on char lists. -/
def pySubstr (needle : List Char) : List Char → Bool
  | [] => needle.isEmpty
  | h :: t => startsWith (h :: t) needle || pySubstr needle t

/-- Python `str.lower()` (ASCII-faithful model). -/
def pyLower (s : List Char) : List Char :=
  s.map Char.toLower

/-- Python `cmd.split()`: split on whitespace runs, dropping empty pieces. -/
def pySplit (s : List Char) : List (List Char) :=
  (s.splitOnP (fun c => c.isWhitespace)).filter (fun l => !l.isEmpty)

/-- The action issued by `spawn_or_focus`. -/
inductive SpawnAction where
  | spawn (command : List (List Char))
  | focusWindowPrevious
  | focusWindow (id : Int)
deriving DecidableEq, Repr

/-- `spawn_or_focus` (main.py lines 73-91).  `window_id` collects the ids of
the windows whose lowered `app_id` is a substring of the lowered argument;
the focused check compares the focused window's `app_id` with the argument
by exact equality (`None == app_id` is false). -/
def spawn_or_focus (focused_window_app_id : Option (List Char)) (windows : List SWindow)
    (app_id cmd : List Char) : SpawnAction :=
  let window_id := (windows.filter
    (fun w => pySubstr (pyLower w.app_id) (pyLower app_id))).map SWindow.id
  match window_id with
  | [] => .spawn (pySplit cmd)
  | wid :: _ =>
    if focused_window_app_id = some app_id then .focusWindowPrevious
    else .focusWindow wid

/-! ## `calculate_pixel_widths` (main.py lines 165-170) -/

/-- `calculate_pixel_widths` (main.py lines 165-170).  Python `//` and `%`
are floor division and nonnegative remainder; for a positive divisor these
coincide with Lean's Euclidean `/` and `%` on `Int` used here. -/
def calculate_pixel_widths (usable_width : Int) (n_columns : Nat) : List Int :=
  let base := usable_width / (n_columns : Int)
  let remainder := usable_width % (n_columns : Int)
  (List.range n_columns).map (fun (i : Nat) => base + if (i : Int) < remainder then 1 else 0)

/-! ## `fit_all_windows` (main.py lines 173-263)

The daemon snapshot (output width, active workspace, windows, focused
window) is passed in.  The resize pass is the pure function `fit_resizes`:
the list of `SetWindowWidth` commands `(id, SetFixed width)` issued, in
order.  The event-stream barrier is `event_wait`, which consumes a prefix
of the arriving events and is measured by how many events it consumes. -/

/-- The fields of a window that `fit_all_windows` reads:
`layout.pos_in_scrolling_layout = [col, row]` and
`layout.window_size = [width, height]` (only the width is used). -/
structure FitWindow where
  id : Int
  workspace_id : Int
  col : Int
  row : Int
  width : Int
deriving DecidableEq, Repr

/-- The sort key comparison used by `sorted(…, key=pos_in_scrolling_layout)`:
lexicographic strict order on `(col, row)`. -/
def posLt (a b : FitWindow) : Bool :=
  decide (a.col < b.col ∨ (a.col = b.col ∧ a.row < b.row))

/-- Stable insertion of a window into an already sorted list: `w` goes in
front of the first element that is not strictly below it. -/
def insertByPos (w : FitWindow) : List FitWindow → List FitWindow
  | [] => [w]
  | x :: xs => if posLt x w then x :: insertByPos w xs else w :: x :: xs

/-- Python's stable `sorted` by the `(col, row)` key, as a structurally
recursive insertion sort (extensionally equal to any stable sort by this
key). -/
def pySorted : List FitWindow → List FitWindow
  | [] => []
  | w :: ws => insertByPos w (pySorted ws)

/-- `windows_on_current_workspace` (main.py lines 182-185): the windows of
the current workspace, sorted by scrolling-layout position. -/
def fit_sorted (windows : List FitWindow) (current_workspace : Int) : List FitWindow :=
  pySorted (windows.filter (fun w => decide (w.workspace_id = current_workspace)))

/-- `n_columns` (main.py lines 188-193): the number of distinct column
indices (Python `len(set(...))`). -/
def fit_n_columns (ws : List FitWindow) : Nat :=
  ((ws.map FitWindow.col).dedup).length

/-- `usable_width` (main.py line 196). -/
def fit_usable_width (output_width gaps : Int) (n_columns : Nat) : Int :=
  output_width - gaps * (n_columns + 1)

/-- `widths` (main.py line 199). -/
def fit_widths (output_width gaps : Int) (windows : List FitWindow)
    (current_workspace : Int) : List Int :=
  calculate_pixel_widths
    (fit_usable_width output_width gaps (fit_n_columns (fit_sorted windows current_workspace)))
    (fit_n_columns (fit_sorted windows current_workspace))

/-- The resize loop (main.py lines 204-224): `zip` the sorted windows with
the width list (truncating at the shorter of the two) and issue a
`SetWindowWidth(id, SetFixed width)` for every pair whose current width
differs from the paired width. -/
def fit_resizes (output_width gaps : Int) (windows : List FitWindow)
    (current_workspace : Int) : List (Int × Int) :=
  ((fit_sorted windows current_workspace).zip
      (fit_widths output_width gaps windows current_workspace)).filterMap
    (fun p => if p.1.width = p.2 then none else some (p.1.id, p.2))

/-- `resized_window_ids` (main.py lines 202, 224): the set of ids actually
resized. -/
def fit_pending (output_width gaps : Int) (windows : List FitWindow)
    (current_workspace : Int) : Finset Int :=
  ((fit_resizes output_width gaps windows current_workspace).map Prod.fst).toFinset

/-- An event from the niri event stream, as consumed by the barrier loop:
either a `WindowLayoutsChanged` carrying `(window_id, layout)` change pairs,
or any other event shape. -/
inductive NiriEvent where
  | windowLayoutsChanged (changes : List (Int × Int))
  | other
deriving DecidableEq, Repr

/-- One `WindowLayoutsChanged` processing step (main.py lines 235-237): add
to `seen` every changed window id that is in `resized_window_ids`. -/
def seenAfter (resized : Finset Int) (changes : List (Int × Int)) (seen : Finset Int) :
    Finset Int :=
  changes.foldl (fun s c => if c.1 ∈ resized then insert c.1 s else s) seen

/-- The event-stream barrier loop (main.py lines 226-240), measured by the
number of events it consumes from the stream.  The `for event in events`
loop first fetches an event (blocking) and only then runs the body, so the
`if not resized_window_ids: break` bail-out still consumes one event.  The
loop also ends when the stream is exhausted (connection closed). -/
def event_wait (resized : Finset Int) : List NiriEvent → Finset Int → Nat
  | [], _ => 0
  | e :: rest, seen =>
    if resized = ∅ then 1
    else
      match e with
      | .windowLayoutsChanged changes =>
        if seenAfter resized changes seen = resized then 1
        else 1 + event_wait resized rest (seenAfter resized changes seen)
      | .other => 1 + event_wait resized rest seen

/-! ## Helper lemmas -/

theorem foldl_min_mem (t : List Int) (h : Int) : t.foldl min h ∈ h :: t := by
  induction t generalizing h with
  | nil => simp
  | cons c t ih =>
    have := ih (min h c)
    rcases List.mem_cons.mp this with h1 | h1
    · rcases min_choice h c with h2 | h2 <;> rw [List.foldl_cons, h1, h2] <;> simp
    · simp only [List.foldl_cons]
      exact List.mem_cons_of_mem _ (List.mem_cons_of_mem _ h1)

theorem foldl_min_le (t : List Int) (h : Int) : ∀ x ∈ h :: t, t.foldl min h ≤ x := by
  induction t generalizing h with
  | nil => intro x hx; simp at hx; simp [hx]
  | cons c t ih =>
    intro x hx
    rcases List.mem_cons.mp hx with h1 | h1
    · subst h1
      calc t.foldl min (min x c) ≤ min x c := ih (min x c) _ (List.mem_cons_self _ _)
        _ ≤ x := min_le_left _ _
    rcases List.mem_cons.mp h1 with h2 | h2
    · subst h2
      calc t.foldl min (min h x) ≤ min h x := ih (min h x) _ (List.mem_cons_self _ _)
        _ ≤ x := min_le_right _ _
    · exact ih (min h c) x (List.mem_cons_of_mem _ h2)

theorem foldl_max_mem (t : List Int) (h : Int) : t.foldl max h ∈ h :: t := by
  induction t generalizing h with
  | nil => simp
  | cons c t ih =>
    have := ih (max h c)
    rcases List.mem_cons.mp this with h1 | h1
    · rcases max_choice h c with h2 | h2 <;> rw [List.foldl_cons, h1, h2] <;> simp
    · simp only [List.foldl_cons]
      exact List.mem_cons_of_mem _ (List.mem_cons_of_mem _ h1)

theorem le_foldl_max (t : List Int) (h : Int) : ∀ x ∈ h :: t, x ≤ t.foldl max h := by
  induction t generalizing h with
  | nil => intro x hx; simp at hx; simp [hx]
  | cons c t ih =>
    intro x hx
    rcases List.mem_cons.mp hx with h1 | h1
    · subst h1
      calc x ≤ max x c := le_max_left _ _
        _ ≤ t.foldl max (max x c) := ih (max x c) _ (List.mem_cons_self _ _)
    rcases List.mem_cons.mp h1 with h2 | h2
    · subst h2
      calc x ≤ max h x := le_max_right _ _
        _ ≤ t.foldl max (max h x) := ih (max h x) _ (List.mem_cons_self _ _)
    · exact ih (max h c) x (List.mem_cons_of_mem _ h2)

theorem pymin_spec (l : List Int) (d : Int) (hne : l ≠ []) :
    pymin l d ∈ l ∧ ∀ x ∈ l, pymin l d ≤ x := by
  match l with
  | [] => exact absurd rfl hne
  | h :: t => exact ⟨foldl_min_mem t h, foldl_min_le t h⟩

theorem pymax_spec (l : List Int) (d : Int) (hne : l ≠ []) :
    pymax l d ∈ l ∧ ∀ x ∈ l, x ≤ pymax l d := by
  match l with
  | [] => exact absurd rfl hne
  | h :: t => exact ⟨foldl_max_mem t h, le_foldl_max t h⟩

theorem sorted_le_getLast (l : List Int) (hs : l.Sorted (· ≤ ·)) (hne : l ≠ []) :
    ∀ x ∈ l, x ≤ l.getLast hne := by
  induction l with
  | nil => exact absurd rfl hne
  | cons a t ih =>
    intro x hx
    match t with
    | [] =>
      simp at hx
      simp [hx, List.getLast]
    | b :: t' =>
      rw [List.getLast_cons (by simp)]
      rcases List.mem_cons.mp hx with h1 | h1
      · subst h1
        have hle := (List.sorted_cons.mp hs).1
        exact hle _ (List.getLast_mem _)
      · exact ih (List.sorted_cons.mp hs).2 (by simp) x h1

/-! ## Claims about `cycle_workspace` -/

/-- C10: with skip mode enabled and no occupied workspace at all, both the
current index and its neighbor are (vacuously) unoccupied, so the fallback
branch is reached; the eagerly evaluated default `occupied[0]` /
`occupied[-1]` raises `IndexError` (modelled as `none`), so no
`FocusWorkspace` command is ever issued — in particular the operation does
not fall back to `current + step`. -/
theorem claim_C10 (direction : Direction) (max_workspace current : Int) :
    cycle_workspace direction (some []) max_workspace current = none := by
  cases direction <;>
    simp [cycle_workspace, next_workspace, select_target]

/-- `next_workspace` with skip disabled is just step-then-wrap. -/
theorem next_workspace_none (max_workspace x s : Int) :
    next_workspace none max_workspace x s = some (wrap max_workspace (x + s)) := rfl

/-- C6: with skip mode disabled, cycling from an interior index 1 < c < max
round-trips: "down" then "up" (and "up" then "down") returns to c; at index
max, "down" wraps to 1; at index 1, "up" wraps to max. -/
theorem claim_C6 (c max_workspace : Int) (h1 : 1 < c) (h2 : c < max_workspace) :
    (next_workspace none max_workspace c 1).bind
        (fun x => next_workspace none max_workspace x (-1)) = some c
    ∧ (next_workspace none max_workspace c (-1)).bind
        (fun x => next_workspace none max_workspace x 1) = some c
    ∧ next_workspace none max_workspace max_workspace 1 = some 1
    ∧ next_workspace none max_workspace 1 (-1) = some max_workspace := by
  have w1 : wrap max_workspace (c + 1) = c + 1 := by unfold wrap; split_ifs <;> omega
  have w2 : wrap max_workspace (c + 1 + -1) = c := by unfold wrap; split_ifs <;> omega
  have w3 : wrap max_workspace (c + -1) = c + -1 := by unfold wrap; split_ifs <;> omega
  have w4 : wrap max_workspace (c + -1 + 1) = c := by unfold wrap; split_ifs <;> omega
  have w5 : wrap max_workspace (max_workspace + 1) = 1 := by unfold wrap; split_ifs <;> omega
  have w6 : wrap max_workspace (1 + -1) = max_workspace := by unfold wrap; split_ifs <;> omega
  refine ⟨?_, ?_, ?_, ?_⟩
  · rw [next_workspace_none, w1, Option.some_bind, next_workspace_none, w2]
  · rw [next_workspace_none, w3, Option.some_bind, next_workspace_none, w4]
  · rw [next_workspace_none, w5]
  · rw [next_workspace_none, w6]

/-- Witness for C6 at c = 2, max = 3. -/
theorem claim_C6_witness :
    (next_workspace none 3 2 1).bind (fun x => next_workspace none 3 x (-1)) = some 2
    ∧ (next_workspace none 3 2 (-1)).bind (fun x => next_workspace none 3 x 1) = some 2
    ∧ next_workspace none 3 3 1 = some 1
    ∧ next_workspace none 3 1 (-1) = some 3 :=
  claim_C6 2 3 (by decide) (by decide)

/-! ## Claims about `calculate_pixel_widths` -/

theorem sum_widths (base : Int) (r : Nat) (n : Nat) :
    ((List.range n).map (fun (i : Nat) => base + if (i : Int) < (r : Int) then 1 else 0)).sum
      = n * base + (min r n : Nat) := by
  induction n with
  | zero => simp
  | succ n ih =>
    rw [List.range_succ, List.map_append, List.sum_append, ih]
    simp only [List.map_cons, List.map_nil, List.sum_cons, List.sum_nil]
    by_cases h : (n : Int) < (r : Int)
    · rw [if_pos h]
      have hn : n < r := by exact_mod_cast h
      push_cast
      rw [add_mul, one_mul]
      omega
    · rw [if_neg h]
      have hn : ¬ n < r := fun hc => h (by exact_mod_cast hc)
      push_cast
      rw [add_mul, one_mul]
      omega

/-- C2: for every usable width `W` and column count `N > 0`,
`calculate_pixel_widths W N` has exactly `N` entries, the entries sum to
`W`, they are non-negative (whenever the usable width itself is
non-negative), any two entries differ by at most 1, and each of the first
`W mod N` entries is exactly 1 greater than each of the remaining
entries. -/
theorem claim_C2 (W : Int) (N : Nat) (hN : 0 < N) :
    (calculate_pixel_widths W N).length = N
    ∧ (calculate_pixel_widths W N).sum = W
    ∧ (0 ≤ W → ∀ x ∈ calculate_pixel_widths W N, 0 ≤ x)
    ∧ (∀ x ∈ calculate_pixel_widths W N, ∀ y ∈ calculate_pixel_widths W N, x - y ≤ 1)
    ∧ (∀ i j : Nat, i < (W % (N : Int)).toNat → (W % (N : Int)).toNat ≤ j → j < N →
        (calculate_pixel_widths W N).getD i 0 = (calculate_pixel_widths W N).getD j 0 + 1) := by
  have hN' : (0 : Int) < N := by exact_mod_cast hN
  have hr0 : 0 ≤ W % (N : Int) := Int.emod_nonneg W (by omega)
  have hrN : W % (N : Int) < N := Int.emod_lt_of_pos W hN'
  have hcast : (((W % (N : Int)).toNat : Nat) : Int) = W % (N : Int) := Int.toNat_of_nonneg hr0
  have hrN' : (W % (N : Int)).toNat < N := by
    have : (((W % (N : Int)).toNat : Nat) : Int) < (N : Int) := by rw [hcast]; exact hrN
    exact_mod_cast this
  have hmem : ∀ x ∈ calculate_pixel_widths W N,
      x = W / (N : Int) ∨ x = W / (N : Int) + 1 := by
    intro x hx
    simp only [calculate_pixel_widths, List.mem_map, List.mem_range] at hx
    obtain ⟨i, _, rfl⟩ := hx
    by_cases hc : (i : Int) < W % (N : Int)
    · right; rw [if_pos hc]
    · left; rw [if_neg hc]; ring
  have hentry : ∀ i : Nat, ∀ hi : i < N, (calculate_pixel_widths W N).getD i 0
      = W / (N : Int) + (if (i : Int) < W % (N : Int) then 1 else 0) := by
    intro i hi
    have hlen : i < (calculate_pixel_widths W N).length := by
      simpa [calculate_pixel_widths] using hi
    rw [List.getD_eq_getElem _ _ hlen]
    simp [calculate_pixel_widths]
  refine ⟨by simp [calculate_pixel_widths], ?_, ?_, ?_, ?_⟩
  · have h1 : calculate_pixel_widths W N
        = (List.range N).map (fun (i : Nat) => W / (N : Int)
            + if (i : Int) < (((W % (N : Int)).toNat : Nat) : Int) then 1 else 0) := by
      simp only [calculate_pixel_widths, hcast]
    rw [h1, sum_widths]
    have hminEq : min ((W % (N : Int)).toNat) N = (W % (N : Int)).toNat := by omega
    rw [hminEq, hcast]
    exact Int.ediv_add_emod W N
  · intro hW x hx
    have hbase : 0 ≤ W / (N : Int) := Int.ediv_nonneg hW (le_of_lt hN')
    rcases hmem x hx with h | h <;> omega
  · intro x hx y hy
    rcases hmem x hx with h | h <;> rcases hmem y hy with h' | h' <;> omega
  · intro i j hi hj hjN
    have hiN : i < N := by omega
    rw [hentry i hiN, hentry j hjN]
    have ci : (i : Int) < W % (N : Int) := by
      have : (i : Int) < (((W % (N : Int)).toNat : Nat) : Int) := by exact_mod_cast hi
      rwa [hcast] at this
    have cj : ¬ (j : Int) < W % (N : Int) := by
      have : (((W % (N : Int)).toNat : Nat) : Int) ≤ (j : Int) := by exact_mod_cast hj
      rw [hcast] at this
      omega
    rw [if_pos ci, if_neg cj]
    ring

/-- Witness for C2 at the spec's own end-to-end example
`W = 1883, N = 3` (widths `[628, 628, 627]`). -/
theorem claim_C2_witness :
    (calculate_pixel_widths 1883 3).length = 3
    ∧ (calculate_pixel_widths 1883 3).sum = 1883 :=
  ⟨(claim_C2 1883 3 (by decide)).1, (claim_C2 1883 3 (by decide)).2.1⟩

/-- C1: target selection of `next_workspace` with skip mode enabled and a
non-empty (sorted, as produced by `occupied_workspaces`) occupied list:
(1) occupied current → target is `current + step` (either direction);
(2) empty current, occupied neighbor → target is `current + step`;
(3) empty current and neighbor, stepping down (+1) with an occupied index
strictly above → target is the nearest (minimal) such index;
(4) symmetrically for stepping up (−1) with an occupied index strictly
below → the nearest (maximal) such index;
(5) stepping down with no occupied index above → the minimum occupied
index; (6) stepping up with no occupied index below → the maximum occupied
index; and the three concrete examples with occupied = [2, 5], max = 6. -/
theorem claim_C1 (occ : List Int) (current : Int) (hne : occ ≠ [])
    (hsorted : occ.Sorted (· ≤ ·)) :
    (∀ step : Int, current ∈ occ →
       select_target (some occ) current step = some (current + step))
    ∧ (∀ step : Int, current ∉ occ → (current + step) ∈ occ →
       select_target (some occ) current step = some (current + step))
    ∧ (current ∉ occ → (current + 1) ∉ occ → (∃ w ∈ occ, current < w) →
       ∃ t, select_target (some occ) current 1 = some t ∧ t ∈ occ ∧ current < t
         ∧ ∀ w ∈ occ, current < w → t ≤ w)
    ∧ (current ∉ occ → (current + -1) ∉ occ → (∃ w ∈ occ, w < current) →
       ∃ t, select_target (some occ) current (-1) = some t ∧ t ∈ occ ∧ t < current
         ∧ ∀ w ∈ occ, w < current → w ≤ t)
    ∧ (current ∉ occ → (current + 1) ∉ occ → (∀ w ∈ occ, ¬ current < w) →
       ∃ t, select_target (some occ) current 1 = some t ∧ t ∈ occ ∧ ∀ w ∈ occ, t ≤ w)
    ∧ (current ∉ occ → (current + -1) ∉ occ → (∀ w ∈ occ, ¬ w < current) →
       ∃ t, select_target (some occ) current (-1) = some t ∧ t ∈ occ ∧ ∀ w ∈ occ, w ≤ t)
    ∧ next_workspace (some [2, 5]) 6 1 1 = some 2
    ∧ next_workspace (some [2, 5]) 6 3 1 = some 5
    ∧ next_workspace (some [2, 5]) 6 5 1 = some 6 := by
  refine ⟨?_, ?_, ?_, ?_, ?_, ?_, by decide, by decide, by decide⟩
  · intro step hc
    simp [select_target, hc]
  · intro step hc hn
    simp [select_target, hc, hn]
  · intro hc hn hex
    match occ, hne with
    | a :: tl, _ =>
      obtain ⟨w, hw, hwgt⟩ := hex
      have hwF : w ∈ (a :: tl).filter (fun w => decide (w > current)) :=
        List.mem_filter.mpr ⟨hw, by simpa using hwgt⟩
      have hFne : (a :: tl).filter (fun w => decide (w > current)) ≠ [] :=
        List.ne_nil_of_mem hwF
      obtain ⟨hmem', hle'⟩ := pymin_spec _ a hFne
      refine ⟨_, ?_, List.mem_of_mem_filter hmem', by simpa using List.of_mem_filter hmem', ?_⟩
      · norm_num [select_target, hc, hn]
      · intro w' hw' hgt'
        exact hle' w' (List.mem_filter.mpr ⟨hw', by simpa using hgt'⟩)
  · intro hc hn hex
    match occ, hne with
    | a :: tl, hne =>
      obtain ⟨w, hw, hwlt⟩ := hex
      have hwF : w ∈ (a :: tl).filter (fun w => decide (w < current)) :=
        List.mem_filter.mpr ⟨hw, by simpa using hwlt⟩
      have hFne : (a :: tl).filter (fun w => decide (w < current)) ≠ [] :=
        List.ne_nil_of_mem hwF
      obtain ⟨hmem', hle'⟩ := pymax_spec _ ((a :: tl).getLast hne) hFne
      refine ⟨_, ?_, List.mem_of_mem_filter hmem', by simpa using List.of_mem_filter hmem', ?_⟩
      · norm_num [select_target, hc, hn, List.getLast?_eq_getLast _ hne]
      · intro w' hw' hlt'
        exact hle' w' (List.mem_filter.mpr ⟨hw', by simpa using hlt'⟩)
  · intro hc hn hall
    match occ, hne with
    | a :: tl, _ =>
      have hF : (a :: tl).filter (fun w => decide (w > current)) = [] := by
        rw [List.filter_eq_nil_iff]
        intro w hw
        simpa using hall w hw
      refine ⟨a, ?_, List.mem_cons_self _ _, ?_⟩
      · norm_num [select_target, hc, hn, hF, pymin]
      · intro w hw
        rcases List.mem_cons.mp hw with h1 | h1
        · omega
        · exact (List.sorted_cons.mp hsorted).1 w h1
  · intro hc hn hall
    match occ, hne with
    | a :: tl, hne =>
      have hF : (a :: tl).filter (fun w => decide (w < current)) = [] := by
        rw [List.filter_eq_nil_iff]
        intro w hw
        simpa using hall w hw
      refine ⟨(a :: tl).getLast hne, ?_, List.getLast_mem hne, ?_⟩
      · norm_num [select_target, hc, hn, hF, pymax, List.getLast?_eq_getLast _ hne]
      · exact sorted_le_getLast _ hsorted hne

/-- Witness for C1: the three concrete examples with skip enabled,
occupied = [2, 5], max = 6, and the general part instantiated. -/
theorem claim_C1_witness :
    next_workspace (some [2, 5]) 6 1 1 = some 2
    ∧ next_workspace (some [2, 5]) 6 3 1 = some 5
    ∧ next_workspace (some [2, 5]) 6 5 1 = some 6 :=
  ⟨(claim_C1 [2, 5] 1 (by decide) (by decide)).2.2.2.2.2.2.1,
   (claim_C1 [2, 5] 1 (by decide) (by decide)).2.2.2.2.2.2.2.1,
   (claim_C1 [2, 5] 1 (by decide) (by decide)).2.2.2.2.2.2.2.2⟩

/-! ## Claims about `send_command` -/

/-- C8: an invalid JSON response line, and a decoded envelope with neither
an "Ok" nor an "Err" key, both make `send_command` raise; neither is ever
returned as if it were an empty success. -/
theorem claim_C8 (cmd : Cmd) (j : Json) (hOk : hasKey j "Ok" = false)
    (hErr : hasKey j "Err" = false) :
    (process_response cmd none).isOk = false
    ∧ (process_response cmd (some j)).isOk = false := by
  refine ⟨rfl, ?_⟩
  match j with
  | .obj fields =>
    cases hlk : lookupField "Ok" fields with
    | none => simp [process_response, hlk, Except.isOk, Except.toBool]
    | some v =>
      simp only [hasKey, hlk, Option.isSome_some] at hOk
      exact absurd hOk (by simp)
  | .null => rfl
  | .bool _ => rfl
  | .num _ => rfl
  | .str _ => rfl
  | .arr _ => rfl

/-- Witness for C8: invalid JSON, and the envelope `{"Foo": null}` with
neither key, are both rejected. -/
theorem claim_C8_witness :
    (process_response (Cmd.str "FocusedWindow") none).isOk = false
    ∧ (process_response (Cmd.str "FocusedWindow")
        (some (Json.obj [("Foo", Json.null)]))).isOk = false :=
  claim_C8 (Cmd.str "FocusedWindow") (Json.obj [("Foo", Json.null)]) (by decide) (by decide)

/-- C4 fails on the code: for the named action `"FocusedWindow"` and the
envelope `{"Ok": {"Other": true}}` — success field present, the value keyed
by the action's name absent — the claim demands an empty/absent result
without error, but `ok_result[cmd]` raises `KeyError`. -/
theorem claim_C4_counterexample :
    process_response (Cmd.str "FocusedWindow")
        (some (Json.obj [("Ok", Json.obj [("Other", Json.bool true)])]))
      = Except.error (PyError.keyError "FocusedWindow") := rfl

/-- C4 amended: for a named-action call whose envelope has the "Ok" key
with value `ok_result`: (1) if `ok_result` is truthy and contains the
action's name, the keyed value is returned as is — including falsy values,
without error; (2) if `ok_result` is truthy but the action's name is
absent, the call raises `KeyError`; (3) if `ok_result` is falsy, the call
takes the failure branch and raises. -/
theorem claim_C4_amended (s : String) (fields : List (String × Json)) (ok_result : Json)
    (h : lookupField "Ok" fields = some ok_result) :
    (∀ okFields : List (String × Json), ok_result = Json.obj okFields →
       truthy ok_result = true →
       ∀ v : Json, lookupField s okFields = some v →
         process_response (Cmd.str s) (some (Json.obj fields)) = Except.ok v)
    ∧ (∀ okFields : List (String × Json), ok_result = Json.obj okFields →
       truthy ok_result = true →
       lookupField s okFields = none →
         process_response (Cmd.str s) (some (Json.obj fields))
           = Except.error (PyError.keyError s))
    ∧ (truthy ok_result = false →
         process_response (Cmd.str s) (some (Json.obj fields))
           = Except.error (PyError.commandError (lookupField "Err" fields))) := by
  refine ⟨?_, ?_, ?_⟩
  · rintro okFields rfl htr v hv
    simp [process_response, h, htr, hv]
  · rintro okFields rfl htr hv
    simp [process_response, h, htr, hv]
  · intro htr
    simp [process_response, h, htr]

/-- Witness for the amended C4: `{"Ok": {"FocusedWindow": null}}` returns
the falsy value `null` without error. -/
theorem claim_C4_witness :
    process_response (Cmd.str "FocusedWindow")
        (some (Json.obj [("Ok", Json.obj [("FocusedWindow", Json.null)])]))
      = Except.ok Json.null :=
  (claim_C4_amended "FocusedWindow" [("Ok", Json.obj [("FocusedWindow", Json.null)])]
      (Json.obj [("FocusedWindow", Json.null)]) rfl).1
    [("FocusedWindow", Json.null)] rfl rfl Json.null rfl

/-! ## Claims about `spawn_or_focus` -/

/-- C7 fails on the code: a window with `app_id = "Firefox"` matches the
argument `"firefox"` case-insensitively and is the focused window, so the
claim demands `FocusWindowPrevious`; but the focused check
`focused_window_app_id == app_id` is case-SENSITIVE exact equality, so the
code issues `FocusWindow 1` instead. -/
theorem claim_C7_counterexample :
    spawn_or_focus (some "Firefox".toList) [⟨1, "Firefox".toList⟩]
        "firefox".toList "firefox".toList
      = SpawnAction.focusWindow 1
    ∧ spawn_or_focus (some "Firefox".toList) [⟨1, "Firefox".toList⟩]
        "firefox".toList "firefox".toList
      ≠ SpawnAction.focusWindowPrevious := by decide

/-- C7 amended: matching is substring containment of the window's lowered
`app_id` in the lowered argument; with no match, a Spawn with the command
split on whitespace is issued; with a match, `FocusWindowPrevious` is
issued exactly when the focused window's `app_id` equals the argument by
exact (case-sensitive) comparison, and otherwise `FocusWindow` on the first
match in windows order. -/
theorem claim_C7_amended (focused : Option (List Char)) (windows : List SWindow)
    (app_id cmd : List Char) :
    (windows.filter (fun w => pySubstr (pyLower w.app_id) (pyLower app_id)) = [] →
       spawn_or_focus focused windows app_id cmd = SpawnAction.spawn (pySplit cmd))
    ∧ (∀ (w : SWindow) (ws' : List SWindow),
        windows.filter (fun w => pySubstr (pyLower w.app_id) (pyLower app_id)) = w :: ws' →
        focused = some app_id →
        spawn_or_focus focused windows app_id cmd = SpawnAction.focusWindowPrevious)
    ∧ (∀ (w : SWindow) (ws' : List SWindow),
        windows.filter (fun w => pySubstr (pyLower w.app_id) (pyLower app_id)) = w :: ws' →
        focused ≠ some app_id →
        spawn_or_focus focused windows app_id cmd = SpawnAction.focusWindow w.id) := by
  refine ⟨?_, ?_, ?_⟩
  · intro hF
    simp [spawn_or_focus, hF]
  · intro w ws' hF hfoc
    simp [spawn_or_focus, hF, hfoc]
  · intro w ws' hF hfoc
    simp [spawn_or_focus, hF, hfoc]

/-- Witness for the amended C7: no open window, so `spawn-or-focus kitty
"kitty -e top"` spawns the whitespace-split command. -/
theorem claim_C7_witness :
    spawn_or_focus none [] "kitty".toList "kitty -e top".toList
      = SpawnAction.spawn (pySplit "kitty -e top".toList) :=
  (claim_C7_amended none [] "kitty".toList "kitty -e top".toList).1 rfl

/-! ## Claims about `read_lines` -/

/-- C9 fails on the code: the first `recv` burst `b"a\nb\nc"` leaves the
buffer containing the two complete newline-terminated lines `a` and `b`,
but because the buffer does not end with a newline, `read_lines` performs
another `recv` BEFORE yielding them — the trace shows the second `recv`
strictly before every yield. -/
theorem claim_C9_counterexample :
    read_trace ["a\nb\nc".toList, "d\n".toList] []
      = [RWAction.recv "a\nb\nc".toList, RWAction.recv "d\n".toList,
         RWAction.yieldLine "a".toList, RWAction.yieldLine "b".toList,
         RWAction.yieldLine "cd".toList] := by decide

/-- C9 amended: when a single `recv` burst leaves the buffer ending with a
newline (so every buffered line is complete), `read_lines` yields all the
buffered lines and never requests more bytes; a burst leaving a partial
trailing line instead triggers further `recv` calls before any yield (see
the counterexample). -/
theorem claim_C9_amended (c : List Char) (rest : List (List Char))
    (h : endsNewline c = true) :
    read_trace (c :: rest) [] = RWAction.recv c :: drain c := by
  have hc : c.isEmpty = false := by
    cases c with
    | nil => simp [endsNewline] at h
    | cons x xs => rfl
  have h0 : endsNewline ([] : List Char) = false := rfl
  simp only [read_trace, h0, Bool.false_eq_true, if_false, hc, List.nil_append]
  cases rest with
  | nil => simp only [read_trace, h, if_true]
  | cons d ds => simp only [read_trace, h, if_true]

/-- Witness for the amended C9: one newline-terminated burst is drained
with no further `recv`. -/
theorem claim_C9_witness :
    read_trace ["ab\n".toList] [] = RWAction.recv "ab\n".toList :: drain "ab\n".toList :=
  claim_C9_amended "ab\n".toList [] (by decide)

/-! ## Claims about `fit_all_windows` -/

/-- Placeholder window used only as the (never reached) `getD` default. -/
def fitDummy : FitWindow :=
  ⟨0, 0, 0, 0, 0⟩

theorem insertByPos_perm (w : FitWindow) (l : List FitWindow) :
    (insertByPos w l).Perm (w :: l) := by
  induction l with
  | nil => exact List.Perm.refl _
  | cons x xs ih =>
    simp only [insertByPos]
    split
    · exact (List.Perm.cons x ih).trans (List.Perm.swap w x xs)
    · exact List.Perm.refl _

theorem pySorted_perm (l : List FitWindow) : (pySorted l).Perm l := by
  induction l with
  | nil => exact List.Perm.refl _
  | cons w ws ih => exact (insertByPos_perm w (pySorted ws)).trans (List.Perm.cons w ih)

theorem fit_sorted_id_nodup (windows : List FitWindow) (current : Int)
    (hnodup : (windows.map FitWindow.id).Nodup) :
    ((fit_sorted windows current).map FitWindow.id).Nodup := by
  have hfil : ((windows.filter (fun w => decide (w.workspace_id = current))).map
      FitWindow.id).Nodup :=
    List.Nodup.sublist (List.Sublist.map _ (List.filter_sublist _)) hnodup
  exact ((pySorted_perm _).map FitWindow.id).nodup_iff.mpr hfil

/-- Membership in the issued resize list, characterized by position: the
pair `(a, b)` is issued iff some index `j` within BOTH the sorted-window
list and the width list has window id `a`, paired width `b`, and current
width different from `b`. -/
theorem fit_resizes_mem (output_width gaps current : Int) (windows : List FitWindow)
    (a b : Int) :
    (a, b) ∈ fit_resizes output_width gaps windows current ↔
      ∃ j : Nat, ∃ hj : j < (fit_sorted windows current).length,
        ∃ hj' : j < (fit_widths output_width gaps windows current).length,
          ((fit_sorted windows current).get ⟨j, hj⟩).id = a
          ∧ (fit_widths output_width gaps windows current).get ⟨j, hj'⟩ = b
          ∧ ((fit_sorted windows current).get ⟨j, hj⟩).width
              ≠ (fit_widths output_width gaps windows current).get ⟨j, hj'⟩ := by
  constructor
  · intro hab
    obtain ⟨p, hp, hfp⟩ := List.mem_filterMap.mp hab
    obtain ⟨j, hj, hpj⟩ := List.mem_iff_getElem.mp hp
    have hj1 : j < (fit_sorted windows current).length := by
      have := hj
      rw [List.length_zip] at this
      omega
    have hj2 : j < (fit_widths output_width gaps windows current).length := by
      have := hj
      rw [List.length_zip] at this
      omega
    rw [List.getElem_zip] at hpj
    by_cases hw : p.1.width = p.2
    · rw [if_pos hw] at hfp
      exact absurd hfp (by simp)
    · rw [if_neg hw] at hfp
      have hfp' : (p.1.id, p.2) = (a, b) := Option.some.inj hfp
      have h1 : p.1.id = a := congrArg Prod.fst hfp'
      have h2 : p.2 = b := congrArg Prod.snd hfp'
      have hp1 : p.1 = (fit_sorted windows current).get ⟨j, hj1⟩ := by
        rw [List.get_eq_getElem, ← hpj]
      have hp2 : p.2 = (fit_widths output_width gaps windows current).get ⟨j, hj2⟩ := by
        rw [List.get_eq_getElem, ← hpj]
      refine ⟨j, hj1, hj2, ?_, ?_, ?_⟩
      · rw [← hp1]; exact h1
      · rw [← hp2]; exact h2
      · rw [← hp1, ← hp2]; exact hw
  · rintro ⟨j, hj, hj', hida, hwb, hne'⟩
    apply List.mem_filterMap.mpr
    have hjz : j < ((fit_sorted windows current).zip
        (fit_widths output_width gaps windows current)).length := by
      rw [List.length_zip]
      omega
    refine ⟨((fit_sorted windows current).get ⟨j, hj⟩,
      (fit_widths output_width gaps windows current).get ⟨j, hj'⟩), ?_, ?_⟩
    · have := List.getElem_mem hjz
      rwa [List.getElem_zip] at this
    · rw [if_neg hne']
      rw [hida, hwb]

/-- C3 fails on the code: workspace 1 has two columns of widths
`[50, 50]`, column 0 holding windows 1 (width 50) and 2 (width 30) and
column 1 holding window 3 (width 30).  The claim demands a resize for
window 3 (its column's target 50 differs from its width 30), but the
per-window `zip` against the per-column width list truncates: only
window 2 is resized (and with column 1's positional width, not its own
column's), and no resize at all is issued for window 3. -/
theorem claim_C3_counterexample :
    fit_resizes 100 0 ([⟨1, 1, 0, 0, 50⟩, ⟨2, 1, 0, 1, 30⟩, ⟨3, 1, 1, 0, 30⟩] :
        List FitWindow) 1
      = [(2, 50)]
    ∧ fit_widths 100 0 ([⟨1, 1, 0, 0, 50⟩, ⟨2, 1, 0, 1, 30⟩, ⟨3, 1, 1, 0, 30⟩] :
        List FitWindow) 1
      = [50, 50]
    ∧ ((fit_resizes 100 0 ([⟨1, 1, 0, 0, 50⟩, ⟨2, 1, 0, 1, 30⟩, ⟨3, 1, 1, 0, 30⟩] :
        List FitWindow) 1).map Prod.fst).contains 3
      = false := by decide

/-- C3 amended: the resize loop zips the position-sorted windows of the
active workspace with the per-column width list, truncating at the
shorter; within the zipped range a window is resized (to its POSITIONALLY
paired width) exactly when that width differs from its current width;
windows beyond the zipped range are never resized; and the pending set
holds exactly the resized ids.  (When every column holds exactly one
window, the positional pairing coincides with "the window's column's
width", which is the case the original claim describes correctly.) -/
theorem claim_C3_amended (output_width gaps current : Int) (windows : List FitWindow)
    (hnodup : (windows.map FitWindow.id).Nodup)
    (_h0 : fit_sorted windows current ≠ []) :
    (∀ i : Nat, ∀ hi : i < (fit_sorted windows current).length,
       ∀ hi' : i < (fit_widths output_width gaps windows current).length,
       (((fit_sorted windows current).get ⟨i, hi⟩).width
           ≠ (fit_widths output_width gaps windows current).get ⟨i, hi'⟩ →
         (((fit_sorted windows current).get ⟨i, hi⟩).id,
             (fit_widths output_width gaps windows current).get ⟨i, hi'⟩)
           ∈ fit_resizes output_width gaps windows current)
       ∧ (((fit_sorted windows current).get ⟨i, hi⟩).width
           = (fit_widths output_width gaps windows current).get ⟨i, hi'⟩ →
         ∀ t : Int, (((fit_sorted windows current).get ⟨i, hi⟩).id, t)
           ∉ fit_resizes output_width gaps windows current))
    ∧ (∀ i : Nat, ∀ hi : i < (fit_sorted windows current).length,
       (fit_widths output_width gaps windows current).length ≤ i →
       ∀ t : Int, (((fit_sorted windows current).get ⟨i, hi⟩).id, t)
         ∉ fit_resizes output_width gaps windows current)
    ∧ (∀ x : Int, x ∈ fit_pending output_width gaps windows current ↔
       ∃ t : Int, (x, t) ∈ fit_resizes output_width gaps windows current) := by
  have hnd := fit_sorted_id_nodup windows current hnodup
  have hid_inj : ∀ j k : Nat, ∀ hj : j < (fit_sorted windows current).length,
      ∀ hk : k < (fit_sorted windows current).length,
      ((fit_sorted windows current).get ⟨j, hj⟩).id
        = ((fit_sorted windows current).get ⟨k, hk⟩).id → j = k := by
    intro j k hj hk he
    have hjm : j < ((fit_sorted windows current).map FitWindow.id).length := by
      simpa using hj
    have hkm : k < ((fit_sorted windows current).map FitWindow.id).length := by
      simpa using hk
    have hmap : ((fit_sorted windows current).map FitWindow.id)[j]
        = ((fit_sorted windows current).map FitWindow.id)[k] := by
      rw [List.getElem_map, List.getElem_map]
      exact he
    exact (List.Nodup.getElem_inj_iff hnd).mp hmap
  refine ⟨?_, ?_, ?_⟩
  · intro i hi hi'
    constructor
    · intro hne'
      exact (fit_resizes_mem output_width gaps current windows _ _).mpr
        ⟨i, hi, hi', rfl, rfl, hne'⟩
    · intro heq t hmem
      obtain ⟨j, hj, hj', hida, hwb, hne'⟩ :=
        (fit_resizes_mem output_width gaps current windows _ _).mp hmem
      have hji : j = i := hid_inj j i hj hi hida
      subst hji
      exact hne' (by rw [heq])
  · intro i hi hlen t hmem
    obtain ⟨j, hj, hj', hida, hwb, hne'⟩ :=
      (fit_resizes_mem output_width gaps current windows _ _).mp hmem
    have hji : j = i := hid_inj j i hj hi hida
    subst hji
    omega
  · intro x
    constructor
    · intro hx
      rw [fit_pending, List.mem_toFinset] at hx
      obtain ⟨p, hp, hpx⟩ := List.mem_map.mp hx
      refine ⟨p.2, ?_⟩
      rw [← hpx, Prod.mk.eta]
      exact hp
    · rintro ⟨t, ht⟩
      rw [fit_pending, List.mem_toFinset]
      exact List.mem_map.mpr ⟨(x, t), ht, rfl⟩

/-- Witness for the amended C3 (same configuration as the counterexample):
window 2's paired width 50 differs from its current width 30, so the
resize `(2, 50)` is issued. -/
theorem claim_C3_witness :
    ((2 : Int), (50 : Int)) ∈ fit_resizes 100 0
      ([⟨1, 1, 0, 0, 50⟩, ⟨2, 1, 0, 1, 30⟩, ⟨3, 1, 1, 0, 30⟩] : List FitWindow) 1 := by
  have h := (claim_C3_amended 100 0 1
      [⟨1, 1, 0, 0, 50⟩, ⟨2, 1, 0, 1, 30⟩, ⟨3, 1, 1, 0, 30⟩]
      (by decide) (by decide)).1 1 (by decide) (by decide)
  exact h.1 (by decide)

/-- C5 fails on the code: with a single window already at its target width
no resize is issued, yet the event-stream wait is NOT skipped — the
`for event in events` loop first blocks for and consumes one event, and
only then hits the empty-pending bail-out, so exactly one event is
consumed before the second focus pass. -/
theorem claim_C5_counterexample :
    fit_resizes 100 0 ([⟨1, 1, 0, 0, 100⟩] : List FitWindow) 1 = []
    ∧ event_wait (fit_pending 100 0 ([⟨1, 1, 0, 0, 100⟩] : List FitWindow) 1)
        [NiriEvent.other] ∅
      = 1 := by decide

/-- C5 amended: when every zipped window is already at its paired target
width, `fit_all_windows` issues zero resize commands, but it still opens
the event stream and its wait loop consumes exactly one event when one
arrives (blocking until it does); only an immediately closed stream ends
the loop with nothing consumed. -/
theorem claim_C5_amended (output_width gaps current : Int) (windows : List FitWindow)
    (events : List NiriEvent)
    (_h0 : fit_sorted windows current ≠ [])
    (h : ∀ p ∈ (fit_sorted windows current).zip
        (fit_widths output_width gaps windows current), p.1.width = p.2) :
    fit_resizes output_width gaps windows current = []
    ∧ event_wait (fit_pending output_width gaps windows current) events ∅
        = min 1 events.length := by
  have hrs : fit_resizes output_width gaps windows current = [] := by
    apply List.filterMap_eq_nil_iff.mpr
    intro p hp
    simp [h p hp]
  refine ⟨hrs, ?_⟩
  have hpend : fit_pending output_width gaps windows current = ∅ := by
    simp [fit_pending, hrs]
  rw [hpend]
  cases events with
  | nil => simp [event_wait]
  | cons e rest =>
    simp only [event_wait, if_pos rfl]
    simp [Nat.min_def]

/-- Witness for the amended C5: one window at its target width, two events
arriving: no resizes and exactly one event consumed. -/
theorem claim_C5_witness :
    fit_resizes 200 10 ([⟨7, 4, 2, 0, 180⟩] : List FitWindow) 4 = []
    ∧ event_wait (fit_pending 200 10 ([⟨7, 4, 2, 0, 180⟩] : List FitWindow) 4)
        [NiriEvent.other, NiriEvent.other] ∅
      = min 1 [NiriEvent.other, NiriEvent.other].length :=
  claim_C5_amended 200 10 4 [⟨7, 4, 2, 0, 180⟩] [NiriEvent.other, NiriEvent.other]
    (by decide) (by decide)

end Nictl
